import Mathlib

/-!
Shallow embedding of the concurrent product-sync engine of the
`medusa-demo` repository, together with theorems settling the frozen
claims about it.

The embedded source files are:
* `src/utils/product-sync-helpers.ts` — `generateBatchTasks`,
  `distributeTasksToWorkers`, `updateStatsFromResult`,
  `handleFetchError`, `processTaskList` (stats effect);
* `src/lib/retry.ts` — `fetchWithRetry`;
* `src/services/dummy-json.ts` — `DummyJsonService.fetchWithRetry`;
* `src/utils/common.ts` — `slugify`;
* `src/workflows/sync-batch.ts` — `upsertProductsStep` (handle
  resolution, create/update classification, upsert payload);
* `src/api/admin/sync/route.ts` — the `POST /admin/sync` trigger.

Machine integers are modelled as `Nat` (all quantities involved are
non-negative counters, ids, sizes and millisecond delays, far from any
overflow); JavaScript strings over the ASCII range are modelled as
`String`/`List Char`.
-/

namespace MedusaSync

/-! ## Task generation (`src/utils/product-sync-helpers.ts`) -/

/-- `BatchTask` from `product-sync-helpers.ts`: `{skip, batchSize}`. -/
structure BatchTask where
  skip : Nat
  batchSize : Nat
deriving DecidableEq, Repr

/-- Ceiling division on `Nat`, the arithmetic form `⌈a / b⌉ = (a + b - 1) / b`
used to state task counts. -/
def ceilDiv (a b : Nat) : Nat := (a + b - 1) / b

/-- The loop body of `generateBatchTasks`:
`for (let skip = 0; skip < totalProducts; skip += batchSize) tasks.push({skip, batchSize})`.
`fuel` bounds the iteration count; `generateBatchTasks` passes enough fuel
for every terminating run of the source loop (the source loop diverges
when `batchSize = 0`, a case no caller exercises). -/
def genTasksAux (total batchSize : Nat) : Nat → Nat → List BatchTask
  | 0, _ => []
  | fuel + 1, skip =>
    if skip < total then
      { skip := skip, batchSize := batchSize } :: genTasksAux total batchSize fuel (skip + batchSize)
    else
      []

/-- `generateBatchTasks(totalProducts, batchSize)` from
`product-sync-helpers.ts` (lines 87–93). -/
def generateBatchTasks (total batchSize : Nat) : List BatchTask :=
  genTasksAux total batchSize (total + 1) 0

/-! ## Round-robin distribution (`distributeTasksToWorkers`) -/

/-- One step of the `tasks.forEach((task, index) => groups[index % workerCount].push(task))`
loop: push `t` onto group `i % workerCount`. -/
def pushTask (workerCount : Nat) (groups : List (List BatchTask)) (it : Nat × BatchTask) :
    List (List BatchTask) :=
  groups.set (it.1 % workerCount) (groups.getD (it.1 % workerCount) [] ++ [it.2])

/-- `distributeTasksToWorkers(tasks, workerCount)` from
`product-sync-helpers.ts` (lines 99–112): start from `workerCount` empty
groups and push task `i` onto group `i % workerCount`. -/
def distributeTasksToWorkers (tasks : List BatchTask) (workerCount : Nat) :
    List (List BatchTask) :=
  tasks.enum.foldl (pushTask workerCount) (List.replicate workerCount [])

/-! ## `slugify` (`src/utils/common.ts`) -/

/-- JavaScript's `\s` class, restricted to the ASCII range the feed data
uses: space, tab, line feed, carriage return, vertical tab, form feed. -/
def isSpaceJS (c : Char) : Bool :=
  c = ' ' || c = '\t' || c = '\n' || c = '\r' || c = '\x0b' || c = '\x0c'

/-- JavaScript's `\w` class: ASCII letters, digits and underscore. -/
def isWordChar (c : Char) : Bool :=
  c.isAlpha || c.isDigit || c = '_'

/-- `String.prototype.toLowerCase`, on the ASCII range: map `A`–`Z` to
`a`–`z`, leave everything else unchanged. -/
def toLowerJS (c : Char) : Char :=
  if c.isUpper then Char.ofNat (c.toNat + 32) else c

/-- `String.prototype.trim`: drop leading and trailing whitespace. -/
def trimJS (l : List Char) : List Char :=
  ((l.dropWhile isSpaceJS).reverse.dropWhile isSpaceJS).reverse

/-- `.replace(/\s+/g, "-")`: each maximal whitespace run becomes a single
hyphen.  `prevSpace` records whether the previous character was
whitespace (so the run has already emitted its hyphen). -/
def wsRunsToHyphen : Bool → List Char → List Char
  | _, [] => []
  | prevSpace, c :: rest =>
    if isSpaceJS c then
      if prevSpace then wsRunsToHyphen true rest
      else '-' :: wsRunsToHyphen true rest
    else
      c :: wsRunsToHyphen false rest

/-- `.replace(/[^\w\-]+/g, "")`: delete every character that is neither a
word character nor a hyphen. -/
def dropNonWord (l : List Char) : List Char :=
  l.filter (fun c => isWordChar c || c = '-')

/-- `.replace(/\-\-+/g, "-")`: collapse every run of two or more hyphens
to a single hyphen.  `prevHyphen` records whether the previous kept
character was a hyphen. -/
def collapseHyphens : Bool → List Char → List Char
  | _, [] => []
  | prevHyphen, c :: rest =>
    if c = '-' then
      if prevHyphen then collapseHyphens true rest
      else '-' :: collapseHyphens true rest
    else
      c :: collapseHyphens false rest

/-- `slugify` from `src/utils/common.ts`:
`text.toString().toLowerCase().trim().replace(/\s+/g, "-").replace(/[^\w\-]+/g, "").replace(/\-\-+/g, "-")`. -/
def slugify (s : String) : String :=
  ⟨collapseHyphens false (dropNonWord (wsRunsToHyphen false (trimJS (s.data.map toLowerJS))))⟩

/-- Helper for the spec's reference slug: replace each maximal run of
non-alphanumeric characters with a single hyphen. -/
def nonAlnumRunsToHyphen : Bool → List Char → List Char
  | _, [] => []
  | prevRun, c :: rest =>
    if c.isAlphanum then c :: nonAlnumRunsToHyphen false rest
    else if prevRun then nonAlnumRunsToHyphen true rest
    else '-' :: nonAlnumRunsToHyphen true rest

/-- Helper for the spec's reference slug: trim leading and trailing
hyphens. -/
def trimHyphens (l : List Char) : List Char :=
  ((l.dropWhile (· = '-')).reverse.dropWhile (· = '-')).reverse

/-- The slug as the spec words it, for comparison with the source's
`slugify`: "lowercase, non-alphanumeric runs collapsed to a single
hyphen, leading/trailing hyphens trimmed". -/
def specSlug (s : String) : String :=
  ⟨trimHyphens (nonAlnumRunsToHyphen false (s.data.map toLowerJS))⟩

/-! ## Retry clients (`src/lib/retry.ts` and `src/services/dummy-json.ts`) -/

/-- The retry configuration of `lib/retry.ts` (`RetryOptions` merged with
`DEFAULT_OPTIONS`). -/
structure RetryConfig where
  maxRetries : Nat
  initialDelayMs : Nat
  maxDelayMs : Nat
  backoffMultiplier : Nat
deriving DecidableEq, Repr

/-- `DEFAULT_OPTIONS` of `lib/retry.ts`. -/
def defaultRetryConfig : RetryConfig :=
  { maxRetries := 3, initialDelayMs := 1000, maxDelayMs := 30000, backoffMultiplier := 2 }

/-- The body of `fetchWithRetry`'s loop in `lib/retry.ts` (lines 33–65),
starting at attempt index `attempt` (0-based, as in the source).
`attempts i` is the outcome of the `i`-th `fetch(url)`+parse: `.ok` with
the parsed payload, or `.error` with the thrown error's message.  Returns
the result together with the list of backoff delays slept, in order. -/
def retryGo {α : Type} (attempts : Nat → Except String α) (cfg : RetryConfig)
    (attempt : Nat) : Except String α × List Nat :=
  match attempts attempt with
  | .ok v => (.ok v, [])
  | .error e =>
    if _h : attempt < cfg.maxRetries then
      let d := min (cfg.initialDelayMs * cfg.backoffMultiplier ^ attempt) cfg.maxDelayMs
      let r := retryGo attempts cfg (attempt + 1)
      (r.1, d :: r.2)
    else
      (.error e, [])
termination_by cfg.maxRetries - attempt
decreasing_by omega

/-- `fetchWithRetry(url, options)` from `lib/retry.ts`: run the attempt
loop from attempt 0.  The final `throw new Error("Failed after ...")` is
modelled as the `.error` result carrying the last error. -/
def fetchWithRetry {α : Type} (attempts : Nat → Except String α) (cfg : RetryConfig) :
    Except String α × List Nat :=
  retryGo attempts cfg 0

/-- Outcome of one `fetch(url)` inside `DummyJsonService.fetchWithRetry`:
a 2xx response with payload, a 429 with an optional `Retry-After` header
(seconds), a non-ok status, or a network error. -/
inductive DummyFetchOutcome (α : Type) where
  | ok (v : α)
  | rateLimited (retryAfter : Option Nat)
  | httpError (msg : String)
  | netError (msg : String)

/-- The loop of `DummyJsonService.fetchWithRetry` (`dummy-json.ts` lines
44–78), `for (attempt = 1; attempt <= retries; attempt++)`, starting at
1-based `attempt` with last caught error `lastErr`.  Returns the result
and the list of delays slept, in order.  A 429 at the last attempt throws
inside the `try`, is caught, and the loop then exits, rethrowing it. -/
def dummyRetryGo {α : Type} (attempts : Nat → DummyFetchOutcome α) (retries : Nat)
    (attempt : Nat) (lastErr : Option String) : Except String α × List Nat :=
  if _h : retries < attempt then
    (.error (lastErr.getD "Unknown network error"), [])
  else
    match attempts attempt with
    | .ok v => (.ok v, [])
    | .rateLimited retryAfter =>
      let waitTime := match retryAfter with
        | some s => s * 1000
        | none => 2000 * attempt
      if attempt < retries then
        let r := dummyRetryGo attempts retries (attempt + 1) lastErr
        (r.1, waitTime :: r.2)
      else
        (.error ("HTTP 429: Rate limited after " ++ toString retries ++ " attempts"), [])
    | .httpError msg =>
      if attempt < retries then
        let backoff := 1000 * 2 ^ (attempt - 1)
        let r := dummyRetryGo attempts retries (attempt + 1) (some msg)
        (r.1, backoff :: r.2)
      else
        (.error msg, [])
    | .netError msg =>
      if attempt < retries then
        let backoff := 1000 * 2 ^ (attempt - 1)
        let r := dummyRetryGo attempts retries (attempt + 1) (some msg)
        (r.1, backoff :: r.2)
      else
        (.error msg, [])
termination_by retries + 1 - attempt
decreasing_by all_goals omega

/-- `DummyJsonService.fetchWithRetry(url, retries)` from
`dummy-json.ts`: run the 1-based attempt loop. -/
def dummyFetchWithRetry {α : Type} (attempts : Nat → DummyFetchOutcome α) (retries : Nat) :
    Except String α × List Nat :=
  dummyRetryGo attempts retries 1 none

/-! ## Batch upsert (`src/workflows/sync-batch.ts`, `upsertProductsStep`) -/

/-- `DummyProduct` from `src/services/dummy-json.ts`. -/
structure DummyProduct where
  id : Nat
  title : String
  description : String
  price : Nat
  category : String
  thumbnail : String
  images : List String
  brand : Option String
deriving DecidableEq, Repr

/-- A product row of the catalog store, as seen by `upsertProductsStep`:
`listProducts` selects `id` and `handle`; `externalId` is
`metadata.external_id` and `categories` the linked category ids, carried
so that claims about idempotency keys and category preservation can be
stated. -/
structure StoreProduct where
  pid : String
  handle : String
  externalId : String
  categories : List String
deriving DecidableEq, Repr

/-- Lookup in a JavaScript `Map`/object built from a list of entries:
when a key repeats, the last entry wins. -/
def jsMapGet (entries : List (String × String)) (k : String) : Option String :=
  match entries with
  | [] => none
  | (k', v) :: rest =>
    match jsMapGet rest k with
    | some v' => some v'
    | none => if k' = k then some v else none

/-- The handle-resolution loop of `upsertProductsStep` (`sync-batch.ts`
lines 95–105): `handle = slugify(p.title)`; if already in `seenHandles`,
`handle = `${handle}-${p.id}``; add the final handle to `seenHandles`. -/
def resolveHandlesGo (seen : List String) : List DummyProduct → List (DummyProduct × String)
  | [] => []
  | p :: rest =>
    let h0 := slugify p.title
    let h := if h0 ∈ seen then h0 ++ "-" ++ toString p.id else h0
    (p, h) :: resolveHandlesGo (h :: seen) rest

/-- Handle resolution for a whole batch, starting from an empty
`seenHandles` set. -/
def resolveHandles (products : List DummyProduct) : List (DummyProduct × String) :=
  resolveHandlesGo [] products

/-- `listProducts({handle: handles}, {select: ["id", "handle"]})`: the
store rows whose handle is among the requested ones. -/
def listProductsByHandle (store : List StoreProduct) (handles : List String) :
    List StoreProduct :=
  store.filter (fun r => r.handle ∈ handles)

/-- One element of the `upsertPayload` array built by
`upsertProductsStep` (lines 120–158), restricted to the scalar fields the
claims are about (variant/option boilerplate omitted). -/
structure UpsertEntry where
  id : Option String
  title : String
  handle : String
  description : String
  thumbnail : String
  images : List String
  categories : List String
  priceAmount : Nat
  externalId : String
  brand : Option String
deriving DecidableEq, Repr

/-- The payload entry for one resolved product: `id` is the result of
`handleToId.get(p.handle)` (present ⇒ update, absent ⇒ create),
`categories` is `categoryId ? [{id: categoryId}] : []`. -/
def mkUpsertEntry (categoryMap handleToId : List (String × String))
    (p : DummyProduct) (h : String) : UpsertEntry :=
  let existingId := jsMapGet handleToId h
  let categoryId := jsMapGet categoryMap p.category
  { id := existingId
    title := p.title
    handle := h
    description := p.description
    thumbnail := p.thumbnail
    images := p.images
    categories := match categoryId with
      | some c => [c]
      | none => []
    priceAmount := p.price * 100
    externalId := toString p.id
    brand := p.brand }

/-- The `resolvedProducts.map(...)` pass of `upsertProductsStep`
(lines 120–158): build the payload while counting `productsCreated`
(no existing id) and `productsUpdated` (existing id). -/
def upsertLoop (categoryMap handleToId : List (String × String)) :
    List (DummyProduct × String) → List UpsertEntry × Nat × Nat
  | [] => ([], 0, 0)
  | (p, h) :: rest =>
    let e := mkUpsertEntry categoryMap handleToId p h
    let r := upsertLoop categoryMap handleToId rest
    match e.id with
    | some _ => (e :: r.1, r.2.1, r.2.2 + 1)
    | none => (e :: r.1, r.2.1 + 1, r.2.2)

/-- `upsertProductsStep` (`sync-batch.ts` lines 78–169) as a function of
its inputs: the batch, the `categoryMap` from `syncCategoriesStep`, and
the catalog store contents.  Returns the upsert payload together with
`productsCreated` and `productsUpdated`. -/
def upsertProductsStep (products : List DummyProduct)
    (categoryMap : List (String × String)) (store : List StoreProduct) :
    List UpsertEntry × Nat × Nat :=
  let resolved := resolveHandles products
  let handles := resolved.map (fun rp => rp.2)
  let existingProducts := listProductsByHandle store handles
  let handleToId := existingProducts.map (fun r => (r.handle, r.pid))
  upsertLoop categoryMap handleToId resolved

/-! ## Run statistics (`src/utils/product-sync-helpers.ts`) -/

/-- `SyncStats` from `product-sync-helpers.ts`. -/
structure SyncStats where
  totalProductsProcessed : Nat
  totalProductsCreated : Nat
  totalProductsUpdated : Nat
  totalCategoriesCreated : Nat
  totalErrors : Nat
  batchesProcessed : Nat
  batchesFailed : Nat
deriving DecidableEq, Repr

/-- The all-zero statistics record a run starts from. -/
def zeroStats : SyncStats := ⟨0, 0, 0, 0, 0, 0, 0⟩

/-- Pointwise sum of two statistics records. -/
def addStats (s t : SyncStats) : SyncStats :=
  ⟨s.totalProductsProcessed + t.totalProductsProcessed,
   s.totalProductsCreated + t.totalProductsCreated,
   s.totalProductsUpdated + t.totalProductsUpdated,
   s.totalCategoriesCreated + t.totalCategoriesCreated,
   s.totalErrors + t.totalErrors,
   s.batchesProcessed + t.batchesProcessed,
   s.batchesFailed + t.batchesFailed⟩

/-- What one task's processing did, as observed by the stats handlers:
the fetch rejected (`handleFetchError`), the fetched page was empty
(no stats change), the workflow run reported a non-empty `errors` array
of length `errorCount` for a batch of `batchLength` items
(`updateStatsFromResult`, error branch), or it succeeded with the given
batch statistics (`updateStatsFromResult`, success branch). -/
inductive TaskOutcome where
  | fetchError
  | emptyBatch
  | workflowFailed (errorCount batchLength : Nat)
  | workflowSucceeded (created updated categoriesCreated batchLength : Nat)
deriving DecidableEq, Repr

/-- The stats effect of finishing one task: `handleFetchError`
(lines 237–249) and `updateStatsFromResult` (lines 201–232) of
`product-sync-helpers.ts`. -/
def applyTaskOutcome (s : SyncStats) : TaskOutcome → SyncStats
  | .fetchError =>
    { s with totalErrors := s.totalErrors + 1, batchesFailed := s.batchesFailed + 1 }
  | .emptyBatch => s
  | .workflowFailed errorCount _ =>
    { s with totalErrors := s.totalErrors + errorCount,
             batchesFailed := s.batchesFailed + 1 }
  | .workflowSucceeded created updated categoriesCreated batchLength =>
    { s with totalProductsCreated := s.totalProductsCreated + created,
             totalProductsUpdated := s.totalProductsUpdated + updated,
             totalCategoriesCreated := s.totalCategoriesCreated + categoriesCreated,
             totalProductsProcessed := s.totalProductsProcessed + batchLength,
             batchesProcessed := s.batchesProcessed + 1 }

/-- The stats effect of a worker's sequential task list (`processTaskList`
chains `processSingleTask` with `.then`; every task's outcome is applied,
errors included, and the chain never stops early because both
`updateStatsFromResult` and `handleFetchError` return normally). -/
def processTaskListStats (outcomes : List TaskOutcome) (s : SyncStats) : SyncStats :=
  outcomes.foldl applyTaskOutcome s

/-! ## Manual trigger (`src/api/admin/sync/route.ts`, `POST`) -/

/-- `lastStatus` values of the route's `syncStatus` record. -/
inductive RunStatus where
  | idle
  | running
  | success
  | error
deriving DecidableEq, Repr

/-- The module-level `syncStatus` record of `route.ts` (timestamps as
abstract `Nat` instants). -/
structure SyncStatus where
  isRunning : Bool
  lastRun : Option Nat
  lastStatus : RunStatus
  lastError : Option String
  lastDuration : Option Nat
  productsCreated : Nat
  productsUpdated : Nat
  errors : Nat
deriving DecidableEq, Repr

/-- The immediate HTTP response of `POST /admin/sync/trigger`: the 409
already-running rejection, or the 202-style success acknowledgement
carrying `startedAt`. -/
inductive TriggerResponse where
  | conflictAlreadyRunning (startedAt : Option Nat)
  | accepted (startedAt : Option Nat)
deriving DecidableEq, Repr

/-- The synchronous part of the `POST` handler (`route.ts` lines 49–96):
reject with 409 when `syncStatus.isRunning`, otherwise mark the run as
started and fire the job in the background.  Returns the response and
the `syncStatus` value after the handler returns (the background job's
later completion callbacks are outside this step). -/
def syncTriggerPOST (st : SyncStatus) (now : Nat) : TriggerResponse × SyncStatus :=
  if st.isRunning then
    (.conflictAlreadyRunning st.lastRun, st)
  else
    let st' := { st with isRunning := true
                         lastRun := some now
                         lastStatus := RunStatus.running
                         lastError := none }
    (.accepted (some now), st')

/-! ## Lemmas about `generateBatchTasks` -/

theorem genTasksAux_of_ge (total b skip : Nat) (fuel : Nat) (hge : total ≤ skip) :
    genTasksAux total b fuel skip = [] := by
  cases fuel with
  | zero => rfl
  | succ f => simp [genTasksAux, Nat.not_lt.mpr hge]

theorem genTasksAux_eq_range (total b : Nat) (k : Nat) :
    ∀ skip fuel, k ≤ fuel → total ≤ skip + k * b →
      (∀ j, j < k → skip + j * b < total) →
      genTasksAux total b fuel skip =
        (List.range k).map (fun i => { skip := skip + i * b, batchSize := b }) := by
  induction k with
  | zero =>
    intro skip fuel _ hcov _
    simp only [Nat.zero_mul, Nat.add_zero] at hcov
    simp [genTasksAux_of_ge total b skip fuel hcov]
  | succ k ih =>
    intro skip fuel hfuel hcov hj
    obtain ⟨f, rfl⟩ : ∃ f, fuel = f + 1 := ⟨fuel - 1, by omega⟩
    have hlt : skip < total := by
      have := hj 0 (Nat.succ_pos k)
      simpa using this
    have hstep : genTasksAux total b (f + 1) skip =
        { skip := skip, batchSize := b } :: genTasksAux total b f (skip + b) := by
      simp [genTasksAux, hlt]
    rw [hstep, ih (skip + b) f (by omega)
      (by have : (k + 1) * b = k * b + b := Nat.succ_mul k b; omega)
      (by
        intro j hjk
        have := hj (j + 1) (by omega)
        have hmul : (j + 1) * b = j * b + b := Nat.succ_mul j b
        omega)]
    rw [List.range_succ_eq_map, List.map_cons, List.map_map]
    congr 1
    · simp
    · apply List.map_congr_left
      intro i _
      have hmul : (i + 1) * b = i * b + b := Nat.succ_mul i b
      simp only [Function.comp_apply, Nat.succ_eq_add_one]
      congr 1
      omega

theorem ceilDiv_mul_bounds (total b : Nat) (hb : 0 < b) :
    total ≤ ceilDiv total b * b ∧ ceilDiv total b * b < total + b := by
  unfold ceilDiv
  have hdm := Nat.div_add_mod (total + b - 1) b
  have hml : (total + b - 1) % b < b := Nat.mod_lt _ hb
  have hcomm : (total + b - 1) / b * b = b * ((total + b - 1) / b) := Nat.mul_comm _ _
  rw [hcomm]
  omega

theorem ceilDiv_le_total_add_one (total b : Nat) (hb : 0 < b) :
    ceilDiv total b ≤ total + 1 := by
  unfold ceilDiv
  have h1 : b * (total + 1) = b * total + b := Nat.mul_succ b total
  have h2 : total ≤ b * total := Nat.le_mul_of_pos_left total hb
  exact (Nat.div_le_iff_le_mul_add_pred hb).mpr (by omega)

/-- C2 counterexample: at `total = 7`, `batchSize = 3` the source's
`generateBatchTasks` gives the last task the full size 3, not
`7 mod 3 = 1` as the claim states, so the task ranges extend to 9 and do
not partition `[0, 7)` exactly. -/
theorem c2_lastTask_counterexample :
    (generateBatchTasks 7 3).getLast?.map (fun t => t.batchSize) = some 3 ∧
      7 % 3 = 1 ∧ (3 : Nat) ≠ 1 ∧
      (generateBatchTasks 7 3).getLast?.map (fun t => t.skip + t.batchSize) = some 9 := by
  decide

/-- C2 (amended): for `batchSize > 0`, `generateBatchTasks` produces
`ceil(total/batchSize)` tasks at offsets `0, b, 2b, …`, every task —
the last one included — carrying the full `batchSize`; consecutive
ranges are adjacent (no gaps, no overlaps) and tile `[0, ceil(total/b)·b)`,
which covers `[0, total)` and overshoots it by less than `batchSize`
(the remote fetch clamps the overshoot). -/
theorem c2_generateBatchTasks_amended (total b : Nat) (hb : 0 < b) :
    generateBatchTasks total b =
      (List.range (ceilDiv total b)).map (fun i => { skip := i * b, batchSize := b }) ∧
    total ≤ ceilDiv total b * b ∧ ceilDiv total b * b < total + b := by
  obtain ⟨hcov, hover⟩ := ceilDiv_mul_bounds total b hb
  refine ⟨?_, hcov, hover⟩
  have hfuel : ceilDiv total b ≤ total + 1 := ceilDiv_le_total_add_one total b hb
  have hmain := genTasksAux_eq_range total b (ceilDiv total b) 0 (total + 1) hfuel
    (by simpa using hcov)
    (by
      intro j hj
      have hle : j + 1 ≤ ceilDiv total b := hj
      have hmul : (j + 1) * b ≤ ceilDiv total b * b := Nat.mul_le_mul_right b hle
      have hsucc : (j + 1) * b = j * b + b := Nat.succ_mul j b
      omega)
  unfold generateBatchTasks
  rw [hmain]
  simp

/-- Witness for C2 (amended) at `total = 7`, `batchSize = 3`. -/
theorem c2_generateBatchTasks_amended_witness :
    generateBatchTasks 7 3 =
      (List.range (ceilDiv 7 3)).map (fun i => { skip := i * 3, batchSize := 3 }) ∧
    7 ≤ ceilDiv 7 3 * 3 ∧ ceilDiv 7 3 * 3 < 7 + 3 :=
  c2_generateBatchTasks_amended 7 3 (by decide)

/-! ## Lemmas about `distributeTasksToWorkers` -/

theorem foldl_pushTask_length (W : Nat) :
    ∀ (L : List (Nat × BatchTask)) (G : List (List BatchTask)),
      (L.foldl (pushTask W) G).length = G.length := by
  intro L
  induction L with
  | nil => intro G; rfl
  | cons it L ih =>
    intro G
    simp only [List.foldl_cons]
    rw [ih]
    simp [pushTask]

theorem foldl_pushTask_getD (W w : Nat) (hw : w < W) :
    ∀ (L : List (Nat × BatchTask)) (G : List (List BatchTask)), G.length = W →
      (L.foldl (pushTask W) G).getD w [] =
        G.getD w [] ++ (L.filter (fun p => p.1 % W = w)).map Prod.snd := by
  intro L
  induction L with
  | nil => intro G _; simp
  | cons it L ih =>
    intro G hG
    have hWpos : 0 < W := Nat.lt_of_le_of_lt (Nat.zero_le w) hw
    have hmod : it.1 % W < G.length := by rw [hG]; exact Nat.mod_lt _ hWpos
    simp only [List.foldl_cons]
    rw [ih (pushTask W G it) (by simp [pushTask, hG])]
    by_cases hcase : it.1 % W = w
    · have hset : (pushTask W G it).getD w [] = G.getD w [] ++ [it.2] := by
        unfold pushTask
        rw [hcase, List.getD_eq_getElem?_getD,
          List.getElem?_set_eq_of_lt _ (by rw [← hcase]; exact hmod)]
        rfl
      rw [hset, List.filter_cons]
      simp [hcase]
    · have hset : (pushTask W G it).getD w [] = G.getD w [] := by
        unfold pushTask
        rw [List.getD_eq_getElem?_getD, List.getElem?_set_ne hcase,
          ← List.getD_eq_getElem?_getD]
      rw [hset, List.filter_cons]
      simp [hcase]

/-- How many indices below `T` fall in the residue class `w` modulo `W`. -/
theorem count_range_mod (W w : Nat) (hW : 0 < W) (hw : w < W) :
    ∀ T : Nat, ((List.range T).filter (fun i => i % W = w)).length =
      T / W + if w < T % W then 1 else 0 := by
  intro T
  induction T with
  | zero => simp
  | succ T ih =>
    have hq := Nat.div_add_mod T W
    have hr : T % W < W := Nat.mod_lt _ hW
    have hsingle : ((List.range T ++ [T]).filter (fun i => i % W = w)).length =
        ((List.range T).filter (fun i => i % W = w)).length +
          (if T % W = w then 1 else 0) := by
      rw [List.filter_append, List.length_append]
      by_cases h : T % W = w <;> simp [h]
    rw [List.range_succ, hsingle, ih]
    rcases Nat.lt_or_ge (T % W + 1) W with hlt | hge
    · have h1 : T + 1 = W * (T / W) + (T % W + 1) := by omega
      have hz : (T % W + 1) / W = 0 := Nat.div_eq_of_lt hlt
      have hdiv : (T + 1) / W = T / W := by
        rw [h1, Nat.mul_add_div hW, hz, Nat.add_zero]
      have hmod : (T + 1) % W = T % W + 1 := by
        rw [h1, Nat.mul_add_mod, Nat.mod_eq_of_lt hlt]
      rw [hdiv, hmod]
      split_ifs <;> omega
    · have hms : W * (T / W + 1) = W * (T / W) + W := Nat.mul_succ _ _
      have h1 : T + 1 = W * (T / W + 1) := by omega
      have hdiv : (T + 1) / W = T / W + 1 := by
        rw [h1, Nat.mul_div_cancel_left _ hW]
      have hmod : (T + 1) % W = 0 := by rw [h1, Nat.mul_mod_right]
      rw [hdiv, hmod]
      split_ifs <;> omega

/-- `ceilDiv` in terms of floor division and remainder. -/
theorem ceilDiv_eq_div_add (T W : Nat) (hW : 0 < W) :
    ceilDiv T W = T / W + if T % W = 0 then 0 else 1 := by
  have hq := Nat.div_add_mod T W
  have hr : T % W < W := Nat.mod_lt _ hW
  unfold ceilDiv
  by_cases hcase : T % W = 0
  · have hT : T + W - 1 = W * (T / W) + (W - 1) := by omega
    have hz : (W - 1) / W = 0 := Nat.div_eq_of_lt (by omega)
    rw [hT, Nat.mul_add_div hW, hz]
    simp [hcase]
  · have hms : W * (T / W + 1) = W * (T / W) + W := Nat.mul_succ W (T / W)
    obtain ⟨r', hr'⟩ : ∃ r', T % W = r' + 1 := ⟨T % W - 1, by omega⟩
    have hT : T + W - 1 = W * (T / W + 1) + r' := by omega
    have hz : r' / W = 0 := Nat.div_eq_of_lt (by omega)
    rw [hT, Nat.mul_add_div hW, hz]
    simp [hcase]

/-- C7: `distributeTasksToWorkers` returns `workerCount` groups; worker
`w` receives exactly the tasks whose index is congruent to `w` modulo
the worker count (round-robin, in order), and therefore receives either
`floor(T/W)` or `ceil(T/W)` tasks. -/
theorem c7_distributeTasksToWorkers_roundRobin (tasks : List BatchTask) (W w : Nat)
    (hW : 0 < W) (hw : w < W) :
    (distributeTasksToWorkers tasks W).length = W ∧
    (distributeTasksToWorkers tasks W).getD w [] =
      (tasks.enum.filter (fun p => p.1 % W = w)).map Prod.snd ∧
    (((distributeTasksToWorkers tasks W).getD w []).length = tasks.length / W ∨
      ((distributeTasksToWorkers tasks W).getD w []).length = ceilDiv tasks.length W) := by
  have hrep : ∀ v : Nat, (List.replicate W ([] : List BatchTask)).getD v [] = [] := by
    intro v
    rw [List.getD_eq_getElem?_getD, List.getElem?_replicate]
    split <;> rfl
  have hlen : (distributeTasksToWorkers tasks W).length = W := by
    unfold distributeTasksToWorkers
    rw [foldl_pushTask_length, List.length_replicate]
  have hgroup : (distributeTasksToWorkers tasks W).getD w [] =
      (tasks.enum.filter (fun p => p.1 % W = w)).map Prod.snd := by
    unfold distributeTasksToWorkers
    rw [foldl_pushTask_getD W w hw tasks.enum (List.replicate W []) (List.length_replicate _ _),
      hrep w, List.nil_append]
  refine ⟨hlen, hgroup, ?_⟩
  have hcount : ((distributeTasksToWorkers tasks W).getD w []).length =
      ((List.range tasks.length).filter (fun i => i % W = w)).length := by
    rw [hgroup, List.length_map, ← List.enum_map_fst tasks, List.filter_map,
      List.length_map]
    congr 1
  rw [hcount, count_range_mod W w hW hw tasks.length]
  by_cases hrem : w < tasks.length % W
  · right
    rw [ceilDiv_eq_div_add tasks.length W hW]
    have : ¬ tasks.length % W = 0 := by omega
    simp [this, hrem]
  · left
    simp [hrem]

/-- Witness for C7 at the spec's example shape: 5 tasks, 2 workers,
worker 1. -/
theorem c7_distributeTasksToWorkers_roundRobin_witness :
    (distributeTasksToWorkers (generateBatchTasks 10 2) 2).length = 2 ∧
    (distributeTasksToWorkers (generateBatchTasks 10 2) 2).getD 1 [] =
      ((generateBatchTasks 10 2).enum.filter (fun p => p.1 % 2 = 1)).map Prod.snd ∧
    (((distributeTasksToWorkers (generateBatchTasks 10 2) 2).getD 1 []).length =
        (generateBatchTasks 10 2).length / 2 ∨
      ((distributeTasksToWorkers (generateBatchTasks 10 2) 2).getD 1 []).length =
        ceilDiv (generateBatchTasks 10 2).length 2) :=
  c7_distributeTasksToWorkers_roundRobin (generateBatchTasks 10 2) 2 1 (by decide) (by decide)

/-! ## Lemmas about `slugify` -/

theorem mem_collapseHyphens : ∀ (b : Bool) (l : List Char) (c : Char),
    c ∈ collapseHyphens b l → c ∈ l := by
  intro b l
  induction l generalizing b with
  | nil => intro c h; simp [collapseHyphens] at h
  | cons a l ih =>
    intro c h
    unfold collapseHyphens at h
    by_cases ha : a = '-'
    · rw [if_pos ha] at h
      cases b with
      | true => exact List.mem_cons_of_mem a (ih true c (by simpa using h))
      | false =>
        simp only [Bool.false_eq_true, if_false] at h
        rcases List.mem_cons.mp h with hc | hc
        · exact hc ▸ (ha ▸ List.mem_cons_self a l)
        · exact List.mem_cons_of_mem a (ih true c hc)
    · rw [if_neg ha] at h
      rcases List.mem_cons.mp h with hc | hc
      · exact hc ▸ List.mem_cons_self a l
      · exact List.mem_cons_of_mem a (ih false c hc)

theorem isSpaceJS_not_word (c : Char) (h : isSpaceJS c = true) :
    (isWordChar c || c = '-') = false := by
  unfold isSpaceJS at h
  simp only [Bool.or_eq_true, decide_eq_true_eq] at h
  rcases h with ((((h | h) | h) | h) | h) | h <;> subst h <;> decide

theorem collapseHyphens_true_head : ∀ (l : List Char) (h : Char) (rest : List Char),
    collapseHyphens true l = h :: rest → h ≠ '-' := by
  intro l
  induction l with
  | nil => intro h rest heq; simp [collapseHyphens] at heq
  | cons a l ih =>
    intro h rest heq
    unfold collapseHyphens at heq
    by_cases ha : a = '-'
    · rw [if_pos ha] at heq
      exact ih h rest (by simpa using heq)
    · rw [if_neg ha] at heq
      simp only [List.cons.injEq] at heq
      exact heq.1 ▸ ha

theorem chain'_collapseHyphens : ∀ (b : Bool) (l : List Char),
    List.Chain' (fun a c => ¬(a = '-' ∧ c = '-')) (collapseHyphens b l) := by
  intro b l
  induction l generalizing b with
  | nil => simp [collapseHyphens]
  | cons a l ih =>
    unfold collapseHyphens
    by_cases ha : a = '-'
    · rw [if_pos ha]
      cases b with
      | true => simpa using ih true
      | false =>
        simp only [Bool.false_eq_true, if_false]
        rw [List.chain'_cons']
        refine ⟨?_, ih true⟩
        intro h hh
        rcases hcoll : collapseHyphens true l with _ | ⟨h', rest⟩
        · rw [hcoll] at hh; simp at hh
        · rw [hcoll] at hh
          simp only [List.head?_cons, Option.mem_def, Option.some.injEq] at hh
          have := collapseHyphens_true_head l h' rest hcoll
          intro hand
          exact (hh ▸ this) hand.2
    · rw [if_neg ha]
      rw [List.chain'_cons']
      refine ⟨?_, ih false⟩
      intro h _
      intro hand
      exact ha hand.1

/-- C8 counterexample: the source's `slugify` keeps underscores and
leading/trailing hyphens and deletes punctuation instead of hyphenating
it, so it differs from the spec's reference definition (lowercase,
non-alphanumeric runs collapsed to one hyphen, outer hyphens trimmed) on
`"a_b"` and `"-abc-"`. -/
theorem c8_slugify_counterexample :
    slugify "a_b" = "a_b" ∧ specSlug "a_b" = "a-b" ∧ slugify "a_b" ≠ specSlug "a_b" ∧
    slugify "-abc-" = "-abc-" ∧ specSlug "-abc-" = "abc" ∧
    slugify "-abc-" ≠ specSlug "-abc-" := by
  refine ⟨rfl, rfl, ?_, rfl, rfl, ?_⟩ <;> decide

/-- C8 (amended): `slugify` is the deterministic pure function
lowercase → trim → whitespace runs to one hyphen → delete characters
that are neither word characters (ASCII letter, digit, underscore) nor
hyphens → collapse hyphen runs.  Consequently its output contains only
word characters and hyphens, contains no whitespace, and never contains
two adjacent hyphens; underscores are preserved, other punctuation is
deleted rather than hyphenated, and outer hyphens are not trimmed. -/
theorem c8_slugify_amended (s : String) :
    (∀ c ∈ (slugify s).data, (isWordChar c || c = '-') = true ∧ isSpaceJS c = false) ∧
    List.Chain' (fun a c => ¬(a = '-' ∧ c = '-')) (slugify s).data := by
  constructor
  · intro c hc
    have hmem : c ∈ dropNonWord (wsRunsToHyphen false (trimJS (s.data.map toLowerJS))) :=
      mem_collapseHyphens false _ c hc
    have hword : (isWordChar c || c = '-') = true := (List.mem_filter.mp hmem).2
    refine ⟨hword, ?_⟩
    by_cases hsp : isSpaceJS c = true
    · rw [isSpaceJS_not_word c hsp] at hword
      exact absurd hword (by simp)
    · exact Bool.not_eq_true _ |>.mp hsp
  · exact chain'_collapseHyphens false _

/-- Witness for C8 (amended) at a concrete input. -/
theorem c8_slugify_amended_witness :
    (∀ c ∈ (slugify "  Hello   World!! ").data,
        (isWordChar c || c = '-') = true ∧ isSpaceJS c = false) ∧
    List.Chain' (fun a c => ¬(a = '-' ∧ c = '-')) (slugify "  Hello   World!! ").data :=
  c8_slugify_amended "  Hello   World!! "

/-! ## Lemmas about the retry clients -/

theorem retryGo_ok {α : Type} (attempts : Nat → Except String α) (cfg : RetryConfig)
    (errs : Nat → String) (v : α) :
    ∀ (k a : Nat), (∀ i, a ≤ i → i < a + k → attempts i = .error (errs i)) →
      attempts (a + k) = .ok v → a + k ≤ cfg.maxRetries →
      retryGo attempts cfg a =
        (.ok v, (List.range k).map
          (fun n => min (cfg.initialDelayMs * cfg.backoffMultiplier ^ (a + n)) cfg.maxDelayMs)) := by
  intro k
  induction k with
  | zero =>
    intro a _ hok _
    rw [retryGo]
    simp only [Nat.add_zero] at hok
    rw [hok]
    simp
  | succ k ih =>
    intro a hfail hok hbound
    have ha : attempts a = .error (errs a) := hfail a (le_refl a) (by omega)
    have halt : a < cfg.maxRetries := by omega
    rw [retryGo, ha]
    simp only [halt, dif_pos]
    have hok' : attempts (a + 1 + k) = .ok v := by
      rw [Nat.add_right_comm a 1 k]
      exact hok
    rw [ih (a + 1) (by intro i hi1 hi2; exact hfail i (by omega) (by omega)) hok' (by omega)]
    rw [List.range_succ_eq_map, List.map_cons, List.map_map]
    simp only [Prod.mk.injEq]
    refine ⟨trivial, List.cons_eq_cons.mpr ⟨rfl, ?_⟩⟩
    apply List.map_congr_left
    intro x _
    have he : a + 1 + x = a + (x + 1) := by omega
    simp only [Function.comp_apply, Nat.succ_eq_add_one]
    rw [he]

theorem dummyRetryGo_ok {α : Type} (attempts : Nat → DummyFetchOutcome α) (retries : Nat)
    (errs : Nat → String) (v : α) :
    ∀ (k a : Nat) (lastErr : Option String), 1 ≤ a →
      (∀ i, a ≤ i → i < a + k → attempts i = .netError (errs i)) →
      attempts (a + k) = .ok v → a + k ≤ retries →
      dummyRetryGo attempts retries a lastErr =
        (.ok v, (List.range k).map (fun n => 1000 * 2 ^ (a + n - 1))) := by
  intro k
  induction k with
  | zero =>
    intro a lastErr _ _ hok hbound
    rw [dummyRetryGo]
    simp only [Nat.add_zero] at hok
    have hnot : ¬ retries < a := by omega
    simp only [hnot, dif_neg, not_false_iff]
    rw [hok]
    simp
  | succ k ih =>
    intro a lastErr ha1 hfail hok hbound
    have ha : attempts a = .netError (errs a) := hfail a (le_refl a) (by omega)
    have hnot : ¬ retries < a := by omega
    have halt : a < retries := by omega
    rw [dummyRetryGo]
    simp only [hnot, dif_neg, not_false_iff]
    rw [ha]
    simp only [halt, if_pos]
    have hok' : attempts (a + 1 + k) = .ok v := by
      rw [Nat.add_right_comm a 1 k]
      exact hok
    rw [ih (a + 1) (some (errs a)) (by omega)
      (by intro i hi1 hi2; exact hfail i (by omega) (by omega)) hok' (by omega)]
    rw [List.range_succ_eq_map, List.map_cons, List.map_map]
    simp only [Prod.mk.injEq]
    refine ⟨trivial, List.cons_eq_cons.mpr ⟨rfl, ?_⟩⟩
    apply List.map_congr_left
    intro x _
    have he : a + 1 + x - 1 = a + (x + 1) - 1 := by omega
    simp only [Function.comp_apply, Nat.succ_eq_add_one]
    rw [he]

/-- C6: a fetch whose first `k` attempts fail and whose next attempt
succeeds returns the successful payload, and the delay slept before the
`n`-th retry (1-based) is `min(initialDelay · multiplier^(n-1), maxDelay)`
for `lib/retry.ts`'s `fetchWithRetry`; `DummyJsonService.fetchWithRetry`
behaves the same with its hard-coded schedule `1000 · 2^(n-1)` ms (it has
no cap parameter) on non-429 failures. -/
theorem c6_fetchWithRetry_schedule :
    (∀ (α : Type) (attempts : Nat → Except String α) (cfg : RetryConfig)
        (errs : Nat → String) (k : Nat) (v : α),
      (∀ i, i < k → attempts i = .error (errs i)) → attempts k = .ok v →
      k < cfg.maxRetries →
      fetchWithRetry attempts cfg =
        (.ok v, (List.range k).map
          (fun n => min (cfg.initialDelayMs * cfg.backoffMultiplier ^ n) cfg.maxDelayMs))) ∧
    (∀ (α : Type) (attempts : Nat → DummyFetchOutcome α) (retries : Nat)
        (errs : Nat → String) (k : Nat) (v : α),
      (∀ i, 1 ≤ i → i ≤ k → attempts i = .netError (errs i)) → attempts (k + 1) = .ok v →
      k + 1 ≤ retries →
      dummyFetchWithRetry attempts retries =
        (.ok v, (List.range k).map (fun n => 1000 * 2 ^ n))) := by
  constructor
  · intro α attempts cfg errs k v hfail hok hk
    unfold fetchWithRetry
    have hmain := retryGo_ok attempts cfg errs v k 0
      (by intro i hi1 hi2; exact hfail i (by omega)) (by simpa using hok) (by omega)
    rw [hmain]
    simp
  · intro α attempts retries errs k v hfail hok hk
    unfold dummyFetchWithRetry
    have hok' : attempts (1 + k) = .ok v := by
      rw [Nat.add_comm 1 k]
      exact hok
    have hmain := dummyRetryGo_ok attempts retries errs v k 1 none (le_refl 1)
      (by intro i hi1 hi2; exact hfail i hi1 (by omega)) hok' (by omega)
    rw [hmain]
    congr 1
    apply List.map_congr_left
    intro x _
    have he : 1 + x - 1 = x := by omega
    rw [he]

/-- Witness for C6: two failures then success, under the default
configurations of both clients. -/
theorem c6_fetchWithRetry_schedule_witness :
    fetchWithRetry (fun i => if i < 2 then Except.error "boom" else Except.ok 42)
        defaultRetryConfig = (.ok 42, [1000, 2000]) ∧
    dummyFetchWithRetry
        (fun i => if i < 3 then DummyFetchOutcome.netError "x" else DummyFetchOutcome.ok 7)
        3 = (.ok 7, [1000, 2000]) := by
  constructor
  · have h := c6_fetchWithRetry_schedule.1 Nat
      (fun i => if i < 2 then Except.error "boom" else Except.ok 42)
      defaultRetryConfig (fun _ => "boom") 2 42
      (by intro i hi; simp [hi]) (by simp) (by decide)
    rw [h]
    rfl
  · have h := c6_fetchWithRetry_schedule.2 Nat
      (fun i => if i < 3 then DummyFetchOutcome.netError "x" else DummyFetchOutcome.ok 7)
      3 (fun _ => "x") 2 7
      (by
        intro i hi1 hi2
        show (if i < 3 then DummyFetchOutcome.netError "x" else DummyFetchOutcome.ok 7) =
          DummyFetchOutcome.netError "x"
        rw [if_pos (by omega)]) (by simp) (by decide)
    rw [h]
    rfl

/-! ## Lemmas about `upsertProductsStep` -/

theorem resolveHandlesGo_length :
    ∀ (ps : List DummyProduct) (seen : List String),
      (resolveHandlesGo seen ps).length = ps.length := by
  intro ps
  induction ps with
  | nil => intro seen; rfl
  | cons p ps ih =>
    intro seen
    unfold resolveHandlesGo
    simp [ih]

theorem upsertLoop_fst (cm hMap : List (String × String)) :
    ∀ (l : List (DummyProduct × String)),
      (upsertLoop cm hMap l).1 = l.map (fun rp => mkUpsertEntry cm hMap rp.1 rp.2) := by
  intro l
  induction l with
  | nil => rfl
  | cons rp l ih =>
    unfold upsertLoop
    cases hid : (mkUpsertEntry cm hMap rp.1 rp.2).id <;> simp [hid, ih]

theorem upsertLoop_counts (cm hMap : List (String × String)) :
    ∀ (l : List (DummyProduct × String)),
      (upsertLoop cm hMap l).2.1 + (upsertLoop cm hMap l).2.2 = l.length := by
  intro l
  induction l with
  | nil => rfl
  | cons rp l ih =>
    unfold upsertLoop
    cases hid : (mkUpsertEntry cm hMap rp.1 rp.2).id <;> simp [hid] <;> omega

theorem jsMapGet_isSome_iff (k : String) :
    ∀ (entries : List (String × String)),
      (jsMapGet entries k).isSome = true ↔ ∃ e ∈ entries, e.1 = k := by
  intro entries
  induction entries with
  | nil => simp [jsMapGet]
  | cons e rest ih =>
    unfold jsMapGet
    cases hrec : jsMapGet rest k with
    | some v =>
      simp only [Option.isSome_some, true_iff]
      have hex : ∃ e2 ∈ rest, e2.1 = k := ih.mp (by rw [hrec]; rfl)
      obtain ⟨e2, he2, hk⟩ := hex
      exact ⟨e2, List.mem_cons_of_mem e he2, hk⟩
    | none =>
      rw [hrec] at ih
      simp only [Option.isSome_none, Bool.false_eq_true, false_iff] at ih
      by_cases hke : e.1 = k
      · simp only [hke, if_pos]
        constructor
        · intro _
          exact ⟨e, List.mem_cons_self e rest, hke⟩
        · intro _
          rfl
      · simp only [hke, if_neg, not_false_iff]
        simp only [Option.isSome_none, Bool.false_eq_true, false_iff]
        intro hex
        obtain ⟨e2, he2, hk2⟩ := hex
        rcases List.mem_cons.mp he2 with rfl | hmem
        · exact hke hk2
        · exact ih ⟨e2, hmem, hk2⟩

/-- C1 counterexample: the catalog store holds a record whose
`metadata.external_id` is exactly the incoming item's external id `1`,
yet because the record's handle (`"old-title"`) differs from the slug of
the item's current title, the item takes the CREATE path
(`productsCreated = 1`, `productsUpdated = 0`) — the external id is not
the lookup key. -/
theorem c1_externalId_counterexample :
    (([⟨"prod_1", "old-title", "1", []⟩] : List StoreProduct).any
        (fun r => r.externalId = toString (1 : Nat))) = true ∧
    (upsertProductsStep [⟨1, "New Title", "d", 5, "cat", "t", [], none⟩] []
        [⟨"prod_1", "old-title", "1", []⟩]).2.2 = 0 ∧
    (upsertProductsStep [⟨1, "New Title", "d", 5, "cat", "t", [], none⟩] []
        [⟨"prod_1", "old-title", "1", []⟩]).2.1 = 1 := by
  decide

/-- C1 (amended): the create-vs-update classification of
`upsertProductsStep` is decided by looking the item's *resolved handle*
up among the catalog records: the payload entry built for each resolved
item carries that handle, and it carries an existing id (UPDATE path)
exactly when some store record bears the same handle, taking the CREATE
path otherwise.  The handle, not the external id, is the de-facto
idempotency key; the external id is only written into metadata. -/
theorem c1_classification_by_handle (products : List DummyProduct)
    (categoryMap : List (String × String)) (store : List StoreProduct) :
    (upsertProductsStep products categoryMap store).1.length = products.length ∧
    List.Forall₂
      (fun (e : UpsertEntry) (rp : DummyProduct × String) =>
        e.handle = rp.2 ∧
        (e.id.isSome = true ↔ ∃ r ∈ store, r.handle = rp.2))
      (upsertProductsStep products categoryMap store).1 (resolveHandles products) := by
  have hfst : (upsertProductsStep products categoryMap store).1 =
      (resolveHandles products).map
        (fun rp => mkUpsertEntry categoryMap
          ((listProductsByHandle store ((resolveHandles products).map (fun rp => rp.2))).map
            (fun r => (r.handle, r.pid))) rp.1 rp.2) := by
    unfold upsertProductsStep
    exact upsertLoop_fst _ _ _
  constructor
  · rw [hfst, List.length_map]
    exact resolveHandlesGo_length products []
  rw [hfst, List.forall₂_map_left_iff]
  apply List.forall₂_same.mpr
  intro rp hrp
  have hmem : rp.2 ∈ (resolveHandles products).map (fun rp => rp.2) :=
    List.mem_map.mpr ⟨rp, hrp, rfl⟩
  refine ⟨rfl, ?_⟩
  have hid : (mkUpsertEntry categoryMap
      ((listProductsByHandle store ((resolveHandles products).map (fun rp => rp.2))).map
        (fun r => (r.handle, r.pid))) rp.1 rp.2).id =
      jsMapGet ((listProductsByHandle store
        ((resolveHandles products).map (fun rp => rp.2))).map (fun r => (r.handle, r.pid)))
        rp.2 := rfl
  rw [hid, jsMapGet_isSome_iff]
  constructor
  · intro hex
    obtain ⟨e, he, hk⟩ := hex
    obtain ⟨r, hr, hre⟩ := List.mem_map.mp he
    refine ⟨r, (List.mem_filter.mp hr).1, ?_⟩
    rw [← hk, ← hre]
  · intro hex
    obtain ⟨r, hr, hre⟩ := hex
    refine ⟨(r.handle, r.pid), List.mem_map.mpr ⟨r, ?_, rfl⟩, hre⟩
    apply List.mem_filter.mpr
    refine ⟨hr, ?_⟩
    rw [hre]
    simpa using hmem

/-- C10: every item of the batch is classified as exactly one of create
or update, so `productsCreated + productsUpdated` equals the number of
items in the batch. -/
theorem c10_created_plus_updated (products : List DummyProduct)
    (categoryMap : List (String × String)) (store : List StoreProduct) :
    (upsertProductsStep products categoryMap store).2.1 +
      (upsertProductsStep products categoryMap store).2.2 = products.length := by
  unfold upsertProductsStep
  rw [upsertLoop_counts]
  exact resolveHandlesGo_length products []

/-- C3 counterexample: a one-item batch whose item matches an existing
record (update path, `productsUpdated = 1`); the store record carries the
manually edited category link `["cat_old"]`, but the upsert payload for
it sets `categories` to the freshly derived `["cat_new"]` — the payload
rewrites category references on update, so the catalog-side edit does not
survive the run. -/
theorem c3_categories_counterexample :
    (upsertProductsStep [⟨1, "Phone", "d", 5, "Gadgets", "t", [], none⟩]
        [("Gadgets", "cat_new")] [⟨"prod_1", "phone", "1", ["cat_old"]⟩]).2.2 = 1 ∧
    (upsertProductsStep [⟨1, "Phone", "d", 5, "Gadgets", "t", [], none⟩]
        [("Gadgets", "cat_new")] [⟨"prod_1", "phone", "1", ["cat_old"]⟩]).1.map
      (fun e => (e.id, e.categories)) = [(some "prod_1", ["cat_new"])] ∧
    (["cat_new"] : List String) ≠ ["cat_old"] := by
  decide

/-- C3 (amended): on every path — the UPDATE path included — the upsert
payload sets the entry's category references from the item's *current*
external category: the mapped category id when `categoryMap` has one,
and the empty list otherwise.  Category links are therefore re-derived
(and catalog-side category edits overwritten) on every run. -/
theorem c3_categories_rederived (products : List DummyProduct)
    (categoryMap : List (String × String)) (store : List StoreProduct) :
    List.Forall₂
      (fun (e : UpsertEntry) (rp : DummyProduct × String) =>
        e.categories = (jsMapGet categoryMap rp.1.category).elim [] (fun c => [c]))
      (upsertProductsStep products categoryMap store).1 (resolveHandles products) := by
  unfold upsertProductsStep
  rw [upsertLoop_fst]
  rw [List.forall₂_map_left_iff]
  apply List.forall₂_same.mpr
  intro rp _
  unfold mkUpsertEntry
  cases hc : jsMapGet categoryMap rp.1.category <;> simp [hc]

/-- C4 counterexample: two items in the same batch titled `"Widget"`
(external ids 1 and 2) produce the slug `"widget"` twice; reconciliation
assigns `"widget"` and `"widget-2"` — the suffix is `-{externalId}`, not
the claimed `-1`. -/
theorem c4_suffix_counterexample :
    (resolveHandles [⟨1, "Widget", "d", 5, "c", "t", [], none⟩,
        ⟨2, "Widget", "d", 5, "c", "t", [], none⟩]).map (fun rp => rp.2) =
      ["widget", "widget-2"] ∧
    ("widget-2" : String) ≠ "widget-1" := by
  decide

/-- C4 (amended): for any two items of a batch whose titles slugify
identically, the first keeps the bare slug and the second receives
`slug ++ "-" ++ externalId`; the two handles are always distinct.
Uniqueness is checked only against the handles assigned during this
batch's in-memory pass (`seenHandles`) — `resolveHandles` does not
consult the catalog store at all. -/
theorem c4_collision_suffix (p1 p2 : DummyProduct)
    (hslug : slugify p1.title = slugify p2.title) :
    resolveHandles [p1, p2] =
      [(p1, slugify p1.title), (p2, slugify p2.title ++ "-" ++ toString p2.id)] ∧
    slugify p2.title ≠ slugify p2.title ++ "-" ++ toString p2.id := by
  have hcons : ∀ (seen : List String) (p : DummyProduct) (ps : List DummyProduct),
      resolveHandlesGo seen (p :: ps) =
        (p, if slugify p.title ∈ seen then slugify p.title ++ "-" ++ toString p.id
            else slugify p.title) ::
          resolveHandlesGo
            ((if slugify p.title ∈ seen then slugify p.title ++ "-" ++ toString p.id
              else slugify p.title) :: seen) ps := by
    intro seen p ps
    rfl
  constructor
  · have h1 : ¬ slugify p1.title ∈ ([] : List String) := by simp
    have h2 : slugify p2.title ∈ [slugify p1.title] := List.mem_singleton.mpr hslug.symm
    unfold resolveHandles
    rw [hcons, if_neg h1, hcons, if_pos h2]
    rfl
  · intro heq
    have hlen := congrArg String.length heq
    rw [String.length_append, String.length_append] at hlen
    have hone : ("-" : String).length = 1 := rfl
    omega

/-- Witness for C4 (amended) with two `"Widget"` items. -/
theorem c4_collision_suffix_witness :
    resolveHandles [⟨1, "Widget", "d", 5, "c", "t", [], none⟩,
        ⟨2, "Widget", "d", 5, "c", "t", [], none⟩] =
      [(⟨1, "Widget", "d", 5, "c", "t", [], none⟩, slugify "Widget"),
       (⟨2, "Widget", "d", 5, "c", "t", [], none⟩, slugify "Widget" ++ "-" ++ toString (2 : Nat))] ∧
    slugify "Widget" ≠ slugify "Widget" ++ "-" ++ toString (2 : Nat) :=
  c4_collision_suffix ⟨1, "Widget", "d", 5, "c", "t", [], none⟩
    ⟨2, "Widget", "d", 5, "c", "t", [], none⟩ rfl

/-! ## Lemmas about the run statistics -/

theorem addStats_zero_right (s : SyncStats) : addStats s zeroStats = s := by
  unfold addStats zeroStats
  simp

theorem addStats_assoc (s t u : SyncStats) :
    addStats (addStats s t) u = addStats s (addStats t u) := by
  unfold addStats
  simp [SyncStats.mk.injEq]
  omega

theorem applyTaskOutcome_addStats (s t : SyncStats) (o : TaskOutcome) :
    applyTaskOutcome (addStats s t) o = addStats s (applyTaskOutcome t o) := by
  cases o <;> simp [applyTaskOutcome, addStats, SyncStats.mk.injEq] <;> omega

theorem processTaskListStats_decompose :
    ∀ (outcomes : List TaskOutcome) (s : SyncStats),
      processTaskListStats outcomes s = addStats s (processTaskListStats outcomes zeroStats) := by
  intro outcomes
  induction outcomes with
  | nil => intro s; simp [processTaskListStats, addStats_zero_right]
  | cons o rest ih =>
    intro s
    unfold processTaskListStats at *
    simp only [List.foldl_cons]
    rw [ih (applyTaskOutcome s o), ih (applyTaskOutcome zeroStats o)]
    have hs : applyTaskOutcome s o = addStats s (applyTaskOutcome zeroStats o) := by
      have := applyTaskOutcome_addStats s zeroStats o
      rw [addStats_zero_right] at this
      exact this
    rw [hs, addStats_assoc]

/-- C5 counterexample: a batch of 3 items whose upsert workflow reports a
single error object is recorded as `totalErrors + 1`, not
`totalErrors + 3` — the batch's items are not each counted as errors;
only the workflow's error objects are. -/
theorem c5_errors_counterexample :
    (applyTaskOutcome zeroStats (.workflowFailed 1 3)).totalErrors = 1 ∧
    (1 : Nat) ≠ 3 ∧
    (applyTaskOutcome zeroStats (.workflowFailed 1 3)).batchesFailed = 1 := by
  decide

/-- C5 (amended): when a batch's upsert workflow fails,
`updateStatsFromResult` adds the *number of workflow error objects* (not
the batch's item count) to `totalErrors`, increments `batchesFailed`, and
leaves every other counter unchanged; the batch is not retried, and the
final statistics of a worker's task list decompose as the initial stats
plus the independent contribution of each task — a failed batch never
affects how any other batch is counted and never aborts the run. -/
theorem c5_batch_failure_isolated :
    (∀ (s : SyncStats) (errorCount batchLength : Nat),
      applyTaskOutcome s (.workflowFailed errorCount batchLength) =
        { s with totalErrors := s.totalErrors + errorCount,
                 batchesFailed := s.batchesFailed + 1 }) ∧
    (∀ (outcomes : List TaskOutcome) (s : SyncStats),
      processTaskListStats outcomes s =
        addStats s (processTaskListStats outcomes zeroStats)) := by
  refine ⟨fun s e L => rfl, processTaskListStats_decompose⟩

/-- C9: a trigger while a run is in progress is rejected with the
already-running conflict and leaves `syncStatus` (the in-progress run's
state included) completely unchanged; a trigger while no run is in
progress starts one — the response acknowledges it, `isRunning` flips to
`true`, `lastStatus` becomes `running`, and the accumulated counters are
untouched. -/
theorem c9_trigger_single_flight (st : SyncStatus) (now : Nat) :
    (st.isRunning = true →
      syncTriggerPOST st now = (.conflictAlreadyRunning st.lastRun, st)) ∧
    (st.isRunning = false →
      (syncTriggerPOST st now).1 = .accepted (some now) ∧
      (syncTriggerPOST st now).2.isRunning = true ∧
      (syncTriggerPOST st now).2.lastStatus = RunStatus.running ∧
      (syncTriggerPOST st now).2.lastRun = some now ∧
      (syncTriggerPOST st now).2.productsCreated = st.productsCreated ∧
      (syncTriggerPOST st now).2.productsUpdated = st.productsUpdated ∧
      (syncTriggerPOST st now).2.errors = st.errors) := by
  constructor <;> intro h <;> simp [syncTriggerPOST, h]

/-- Witness for C9: one rejected trigger against a running status, one
accepted trigger against an idle status. -/
theorem c9_trigger_single_flight_witness :
    syncTriggerPOST ⟨true, some 5, RunStatus.running, none, none, 1, 2, 3⟩ 9 =
      (.conflictAlreadyRunning (some 5),
        ⟨true, some 5, RunStatus.running, none, none, 1, 2, 3⟩) ∧
    (syncTriggerPOST ⟨false, none, RunStatus.idle, none, none, 0, 0, 0⟩ 9).1 =
      .accepted (some 9) :=
  ⟨(c9_trigger_single_flight ⟨true, some 5, RunStatus.running, none, none, 1, 2, 3⟩ 9).1 rfl,
   ((c9_trigger_single_flight ⟨false, none, RunStatus.idle, none, none, 0, 0, 0⟩ 9).2 rfl).1⟩

end MedusaSync
